import Mathlib

/-!
Verification of the BookForge-Studio core orchestration machinery.

This file gives a shallow embedding, in Lean 4, of the parts of the
repository that the frozen claims talk about:

* `backend/core/utils/sentence_chunking.py` — the sentence/speaker-aware
  chunker (`split_into_sentences`, `count_words`, `chunk_sentences`);
* `backend/core/utils/generation_utils.py` — multi-candidate generation
  (`generate_single_candidate_via_service`,
  `generate_candidates_with_service_calls`);
* `backend/core/router_steps.py` — the pipeline execution engine
  (`_execute_steps_impl`, `execute_steps_background`);
* `backend/steps/whisper_check.py` — candidate selection
  (the tail of `process` and `cleanup_candidates`);
* `backend/core/utils/url_utils.py` — path encoding helpers used when
  the voice-reference lists are rebuilt before chunking.

Python strings are modelled as `List Char` (`PyStr`); Python `int` as
`Int`; Python dicts holding heterogeneous values as ordered association
lists over an inductive value type; raising as `Except`.  All
definitions are executable and structurally recursive, so concrete runs
evaluate by `rfl` / `decide`.
-/

/-- Python `str` modelled as a list of characters. -/
abbrev PyStr := List Char

namespace BookForge

/-- ASCII whitespace, as recognised by Python `str.strip`, `str.split()`
and the regex class `\s` on the inputs we model. -/
def pyIsSpace (c : Char) : Bool :=
  c = ' ' || c = '\t' || c = '\n' || c = '\r' || c = '\x0b' || c = '\x0c'

/-- Terminal punctuation recognised by the chunker, the regex class `[.!?]`. -/
def isTerminalPunct (c : Char) : Bool :=
  c = '.' || c = '!' || c = '?'

/-- Python `str.strip()`: drop whitespace from both ends. -/
def pyStrip (s : PyStr) : PyStr :=
  ((s.dropWhile pyIsSpace).reverse.dropWhile pyIsSpace).reverse

/-- Helper for `count_words`: count maximal non-whitespace runs.  The
boolean records whether the previous character was inside a word. -/
def countWordsAux : PyStr → Bool → Nat
  | [], _ => 0
  | c :: rest, inWord =>
    if pyIsSpace c then countWordsAux rest false
    else (if inWord then 0 else 1) + countWordsAux rest true

/-- `count_words` from sentence_chunking.py: `len(text.split())`, the
number of whitespace-delimited tokens. -/
def count_words (s : PyStr) : Nat := countWordsAux s false

/-- Scanning mode of the splitting automaton for the regex
`[.!?]+(?:\s+|$)` used by `re.split` in `split_into_sentences`:
either we are reading ordinary segment characters, or we have read a
(pending) run of terminal punctuation, or we are consuming the
whitespace run that completed a match. -/
inductive SplitMode where
  | norm
  | punctRun (run : PyStr)
  | ws
  deriving Repr, DecidableEq

/-- One-character-at-a-time automaton implementing
`re.split(r"[.!?]+(?:\s+|$)", text)`.

A maximal run of `[.!?]` followed by whitespace or end-of-string is a
match (splitting point, separator discarded); a punctuation run followed
by any other character matches nothing (backtracking inside the run
cannot help, since every shorter run is still followed by a punctuation
character) and is flushed back into the current segment.  `seg` holds
the current segment in reverse; in `punctRun` the pending run is also
reversed. -/
def reSplitAux : PyStr → SplitMode → PyStr → List PyStr
  | [], .norm, seg => [seg.reverse]
  | [], .punctRun _, seg => [seg.reverse, []]
  | [], .ws, _ => [[]]
  | c :: rest, .norm, seg =>
    if isTerminalPunct c then reSplitAux rest (.punctRun [c]) seg
    else reSplitAux rest .norm (c :: seg)
  | c :: rest, .punctRun run, seg =>
    if isTerminalPunct c then reSplitAux rest (.punctRun (c :: run)) seg
    else if pyIsSpace c then seg.reverse :: reSplitAux rest .ws []
    else reSplitAux rest .norm (c :: (run ++ seg))
  | c :: rest, .ws, seg =>
    if pyIsSpace c then reSplitAux rest .ws seg
    else if isTerminalPunct c then reSplitAux rest (.punctRun [c]) seg
    else reSplitAux rest .norm (c :: seg)

/-- `re.split(r"[.!?]+(?:\s+|$)", text)`. -/
def reSplitSentences (text : PyStr) : List PyStr :=
  reSplitAux text .norm []

/-- `needle` occurs at the head of `hay`. -/
def startsWithChars : PyStr → PyStr → Bool
  | [], _ => true
  | _ :: _, [] => false
  | a :: as, b :: bs => a = b && startsWithChars as bs

/-- Python `str.find`: index of the first occurrence of `needle` in
`hay`, `none` for Python `-1`.  (`find("")` is `0`.) -/
def strFind : PyStr → PyStr → Option Nat
  | hay, needle =>
    if startsWithChars needle hay then some 0
    else
      match hay with
      | [] => none
      | _ :: t => (strFind t needle).map (· + 1)

/-- `split_into_sentences` from sentence_chunking.py: split the stripped
text with `re.split(r"[.!?]+(?:\s+|$)")`; strip each fragment, discard
empty ones; for each surviving fragment, locate its FIRST occurrence in
the original (unstripped) text with `text.find(sentence)` and re-attach
the run of `[.!?]` found right after that occurrence. -/
def split_into_sentences (text : PyStr) : List PyStr :=
  (reSplitSentences (pyStrip text)).filterMap fun seg =>
    let s := pyStrip seg
    if s.isEmpty then none
    else
      some (match strFind text s with
        | some pos => s ++ (text.drop (pos + s.length)).takeWhile isTerminalPunct
        | none => s)

/-- A mini-chunk ("mini-unit"): one sentence tagged with the voice clone
and transcription of its originating text entry. -/
structure Mini where
  text : PyStr
  voice_clone : PyStr
  voice_transcription : PyStr
  deriving Repr, DecidableEq

/-- A chunk as returned by `chunk_sentences`: parallel lists of merged
text entries, voice clones and transcriptions. -/
structure Chunk where
  texts : List PyStr
  voice_clones : List PyStr
  voice_transcriptions : List PyStr
  deriving Repr, DecidableEq

/-- Step 1 of `chunk_sentences`: one `Mini` per sentence of each text
entry, in order, tagged with that entry's voice clone and
transcription.  (The source indexes the parallel lists, which have been
validated to be of equal length; zipping is the same thing.) -/
def mini_chunks_of (texts voice_clones voice_transcriptions : List PyStr) : List Mini :=
  (texts.zip (voice_clones.zip voice_transcriptions)).flatMap fun p =>
    (split_into_sentences p.1).map fun s => ⟨s, p.2.1, p.2.2⟩

/-- State of the accumulation loop in `chunk_sentences`:
`current_chunk`, `current_word_count`, `current_speaker_info`. -/
structure ChunkState where
  cur : Chunk
  wc : Nat
  spk : Option (PyStr × PyStr)
  deriving Repr, DecidableEq

def emptyChunk : Chunk := ⟨[], [], []⟩

def initChunkState : ChunkState := ⟨emptyChunk, 0, none⟩

/-- `chunks.append(current_chunk)` guarded by `if current_chunk["texts"]`. -/
def flushChunk (c : Chunk) : List Chunk :=
  if c.texts.isEmpty then [] else [c]

/-- Python `current_chunk["texts"][-1] += " " + sentence` (callers
guarantee the list is non-empty). -/
def appendToLast : List PyStr → PyStr → List PyStr
  | [], _ => []
  | [x], s => [x ++ s]
  | x :: y :: xs, s => x :: appendToLast (y :: xs) s

/-- Merge a mini-unit into the trailing text entry of a chunk
(same-speaker case): the last entry becomes `entry ++ " " ++ sentence`. -/
def mergeLast (c : Chunk) (m : Mini) : Chunk :=
  ⟨appendToLast c.texts (' ' :: m.text), c.voice_clones, c.voice_transcriptions⟩

/-- Append a mini-unit to a chunk as a fresh text entry with its own
voice clone / transcription. -/
def appendEntry (c : Chunk) (m : Mini) : Chunk :=
  ⟨c.texts ++ [m.text], c.voice_clones ++ [m.voice_clone],
   c.voice_transcriptions ++ [m.voice_transcription]⟩

/-- One iteration of the accumulation loop in `chunk_sentences` (source
lines 109-176): returns the chunks emitted by this iteration and the new
loop state.  `minLen` is `approximate_min_chunk_length` (a Python int,
hence `Int`). -/
def chunkStep (minLen : Int) (st : ChunkState) (m : Mini) : List Chunk × ChunkState :=
  if (count_words m.text : Int) ≥ minLen then
    (flushChunk st.cur ++ [⟨[m.text], [m.voice_clone], [m.voice_transcription]⟩],
     initChunkState)
  else if ((st.wc + count_words m.text : Nat) : Int) ≥ minLen && !st.cur.texts.isEmpty then
    (if some (m.voice_clone, m.voice_transcription) = st.spk then [mergeLast st.cur m]
     else [appendEntry st.cur m],
     initChunkState)
  else
    if some (m.voice_clone, m.voice_transcription) = st.spk && !st.cur.texts.isEmpty then
      ([], ⟨mergeLast st.cur m, st.wc + count_words m.text, st.spk⟩)
    else
      ([], ⟨appendEntry st.cur m, st.wc + count_words m.text,
            some (m.voice_clone, m.voice_transcription)⟩)

/-- The accumulation loop over all mini-units: emitted chunks in order,
plus the final state. -/
def chunkFold (minLen : Int) : List Mini → ChunkState → List Chunk × ChunkState
  | [], st => ([], st)
  | m :: rest, st =>
    ((chunkStep minLen st m).1 ++ (chunkFold minLen rest (chunkStep minLen st m).2).1,
     (chunkFold minLen rest (chunkStep minLen st m).2).2)

/-- Step 2 of `chunk_sentences`: run the loop, then append any remaining
non-empty chunk. -/
def combine_minis (minLen : Int) (minis : List Mini) : List Chunk :=
  if minis.isEmpty then []
  else
    (chunkFold minLen minis initChunkState).1 ++
      flushChunk (chunkFold minLen minis initChunkState).2.cur

/-- `chunk_sentences` from sentence_chunking.py.  Raises `ValueError`
(modelled as `Except.error`) when the three lists do not all have the
same length; returns `[]` for empty input. -/
def chunk_sentences (texts voice_clones voice_transcriptions : List PyStr)
    (approximate_min_chunk_length : Int) : Except PyStr (List Chunk) :=
  if texts.length ≠ voice_clones.length ∨ texts.length ≠ voice_transcriptions.length then
    .error "All input lists must have the same length".data
  else if texts.isEmpty then .ok []
  else .ok (combine_minis approximate_min_chunk_length
    (mini_chunks_of texts voice_clones voice_transcriptions))

/-! ### Parameter dictionaries and the execution context -/

/-- A value stored in the untyped `parameters` dict of a `StepContext`. -/
inductive PVal where
  | int (n : Int)
  | str (s : PyStr)
  | bool (b : Bool)
  deriving Repr, DecidableEq

/-- A Python dict modelled as an insertion-ordered association list. -/
abbrev Params := List (PyStr × PVal)

/-- Python dict assignment `d[k] = v`: replace in place, else append. -/
def dictSet : Params → PyStr → PVal → Params
  | [], k, v => [(k, v)]
  | (k0, v0) :: rest, k, v =>
    if k0 = k then (k, v) :: rest else (k0, v0) :: dictSet rest k v

/-- Python dict lookup `d.get(k)`. -/
def dictGet : Params → PyStr → Option PVal
  | [], _ => none
  | (k0, v0) :: rest, k => if k0 = k then some v0 else dictGet rest k

/-- Integer lookup with a default. -/
def getIntD (d : Params) (k : PyStr) (dflt : Int) : Int :=
  match dictGet d k with
  | some (.int n) => n
  | _ => dflt

/-- The `StepContext` of `backend/core/data_types/step_context.py`,
restricted to the fields the claims touch; field defaults mirror the
source. -/
structure StepContext where
  execution_id : Option PyStr := none
  original_text_array : List PyStr := []
  multiple_speaker_text_array : List PyStr := []
  current_audio : Option PyStr := none
  output_files : List PyStr := []
  enable_parallel : Bool := false
  seed : Int := 0
  actual_seed : Option Int := none
  voice_clone_paths : List PyStr := []
  audio_transcriptions : List PyStr := []
  num_candidates : Nat := 1
  approximate_min_chunk_length : Int := 9999999
  is_multi_speaker : Bool := false
  audio_candidates : List PyStr := []
  parameters : Params := []

/-- Python `x or d` on ints: `0` is falsy. -/
def pyOrInt (n d : Int) : Int := if n = 0 then d else n

/-! ### URL helpers (`backend/core/utils/url_utils.py`) -/

/-- UTF-8 bytes of one code point (`str.encode("utf-8")`). -/
def utf8Bytes (c : Char) : List Nat :=
  let n := c.toNat
  if n < 0x80 then [n]
  else if n < 0x800 then [0xC0 + n / 64, 0x80 + n % 64]
  else if n < 0x10000 then [0xE0 + n / 4096, 0x80 + (n / 64) % 64, 0x80 + n % 64]
  else [0xF0 + n / 262144, 0x80 + (n / 4096) % 64, 0x80 + (n / 64) % 64, 0x80 + n % 64]

/-- `str.encode("utf-8")` as a byte list. -/
def utf8Encode (s : PyStr) : List Nat := s.flatMap utf8Bytes

/-- The base64 alphabet character for a 6-bit value. -/
def b64Char (n : Nat) : Char :=
  "ABCDEFGHIJKLMNOPQRSTUVWXYZabcdefghijklmnopqrstuvwxyz0123456789+/".data.getD n 'A'

/-- Standard base64 of a byte list (`base64.b64encode`). -/
def b64encodeBytes : List Nat → PyStr
  | [] => []
  | [a] => [b64Char (a / 4), b64Char (a % 4 * 16), '=', '=']
  | [a, b] => [b64Char (a / 4), b64Char (a % 4 * 16 + b / 16), b64Char (b % 16 * 4), '=']
  | a :: b :: c :: rest =>
    b64Char (a / 4) :: b64Char (a % 4 * 16 + b / 16) ::
      b64Char (b % 16 * 4 + c / 64) :: b64Char (c % 64) :: b64encodeBytes rest

/-- `add_file_prefix` from url_utils.py; `testing` is the
`TESTING` environment toggle. -/
def add_file_prefix (testing : Bool) (file_path : PyStr) : PyStr :=
  if testing then file_path else "files/".data ++ file_path

/-- `encode_filepath_for_url` from url_utils.py. -/
def encode_filepath_for_url (file_path : PyStr) : PyStr :=
  if file_path.isEmpty then [] else b64encodeBytes (utf8Encode file_path)

/-! ### Multi-candidate generation
(`backend/core/utils/generation_utils.py`) -/

/-- Lines 177-181 of generation_utils.py, inside
`generate_single_candidate_via_service`: `candidate_params` is a copy of
`context.parameters`; when `context.actual_seed` is set, its `"seed"`
key is assigned `context.actual_seed + candidate_idx`. -/
def candidate_params (parameters : Params) (actual_seed : Option Int)
    (candidate_idx : Nat) : Params :=
  match actual_seed with
  | some s => dictSet parameters "seed".data (.int (s + candidate_idx))
  | none => parameters

/-- Lines 186-212 of generation_utils.py: the chunk sequence computed by
`generate_single_candidate_via_service` for candidate `candidate_idx`.
The voice-path list is rebuilt from `context.voice_clone_paths` on every
call, and the word bound is `context.approximate_min_chunk_length or 20`.
The candidate index plays no role in this computation. -/
def candidate_chunk_sequence (ctx : StepContext) (testing : Bool)
    (texts audio_transcriptions : List PyStr) (candidate_idx : Nat) :
    Except PyStr (List Chunk) :=
  let voice_paths := ctx.voice_clone_paths.map fun vcp =>
    encode_filepath_for_url ( add_file_prefix testing vcp)
  chunk_sentences texts voice_paths audio_transcriptions
    (pyOrInt ctx.approximate_min_chunk_length 20)

/-- Sequential-branch loop of `generate_candidates_with_service_calls`
(lines 344-362): one `await` per candidate index, with NO per-candidate
exception handling, so the first failure propagates.  `gen i` stands for
the outcome of `generate_single_candidate_via_service` for candidate
`i`. -/
def seq_generate (gen : Nat → Except PyStr α) : List Nat → Except PyStr (List α)
  | [] => .ok []
  | i :: rest =>
    match gen i with
    | .error e => .error e
    | .ok r =>
      match seq_generate gen rest with
      | .error e => .error e
      | .ok rs => .ok (r :: rs)

/-- `generate_candidates_with_service_calls` (lines 282-384), abstracted
over the per-candidate generation outcome `gen`.  The parallel branch is
`asyncio.gather(..., return_exceptions=True)` followed by collecting the
successful results in index order; the sequential branch is
`seq_generate`.  In both branches, an empty survivor list raises
`No valid candidates generated`; on success `context.audio_candidates`
receives the survivor list (the returned value). -/
def generate_candidates_with_service_calls (texts voice_paths audio_transcriptions : List PyStr)
    (enable_parallel : Bool) (num_candidates : Nat) (gen : Nat → Except PyStr α) :
    Except PyStr (List α) :=
  if ¬ (texts.length = voice_paths.length ∧ voice_paths.length = audio_transcriptions.length) then
    .error "Lengths of texts, voice_paths, and audio_transcriptions must match".data
  else
    let collected :=
      if enable_parallel && num_candidates > 1 then
        .ok ((List.range num_candidates).filterMap fun i => (gen i).toOption)
      else
        seq_generate gen (List.range num_candidates)
    match collected with
    | .error e => .error e
    | .ok candidates =>
      if candidates.isEmpty then .error "No valid candidates generated".data
      else .ok candidates

/-- Number of candidates whose generation is started by the sequential
branch: every started candidate runs `chunk_sentences` once (line 207)
before any service call, and the loop stops at the first failure. -/
def seq_attempts (gen : Nat → Except PyStr α) : List Nat → Nat
  | [] => 0
  | i :: rest =>
    match gen i with
    | .error _ => 1
    | .ok _ => 1 + seq_attempts gen rest

/-- How many times one invocation of
`generate_candidates_with_service_calls` invokes `chunk_sentences`:
once per started candidate, because the chunker is called inside
`generate_single_candidate_via_service` (line 207), not once up front.
The parallel branch starts every candidate. -/
def chunker_invocations (enable_parallel : Bool) (num_candidates : Nat)
    (gen : Nat → Except PyStr α) : Nat :=
  if enable_parallel && num_candidates > 1 then num_candidates
  else seq_attempts gen (List.range num_candidates)

/-! ### Pipeline execution engine (`backend/core/router_steps.py`) -/

/-- An event pushed to the websocket notification sink. -/
inductive Event where
  | progress (stepName : PyStr) (stepIndex : Int) (total : Int)
  | complete
  | error (msg : PyStr)
  deriving Repr, DecidableEq

/-- One entry of the step registry `loaded_steps`: the executable
`process` function and the `multi-speaker` metadata flag read by the
engine. -/
structure StepInfo where
  process : StepContext → Except PyStr StepContext
  multiSpeaker : Bool := false

/-- The step registry `loaded_steps`. -/
abbrev Registry := List (PyStr × StepInfo)

/-- Registry lookup by step name. -/
def regLookup : Registry → PyStr → Option StepInfo
  | [], _ => none
  | (k, v) :: rest, n => if k = n then some v else regLookup rest n

/-- `", ".join(missing_steps)`. -/
def joinCommaSpace : List PyStr → PyStr
  | [] => []
  | [s] => s
  | s :: rest => s ++ ',' :: ' ' :: joinCommaSpace rest

/-- The message of the error event emitted when a step raises.  (The
Python message wraps the step name in single quotes:
`Error executing step 'name': e`; the quotes are elided here.) -/
def stepErrorMsg (name e : PyStr) : PyStr :=
  "Error executing step ".data ++ name ++ ": ".data ++ e

/-- `context.parameters["step_index"] += 1`. -/
def incStepIndex (ctx : StepContext) : StepContext :=
  { ctx with parameters := (dictSet ctx.parameters "step_index".data
      (.int (getIntD ctx.parameters "step_index".data 0 + 1))) }

/-- The per-step loop of `_execute_steps_impl` (lines 256-298): for each
step name, bump `step_index`, emit a progress event, look the step up
and run its `process`.  A raising step yields one error event and stops;
a missing name would raise `KeyError` inside the same handler (it cannot
happen after pre-flight).  Returns the emitted events, the names whose
`process` ran (the raising step included), and the final context when
every step succeeded. -/
def execLoop (reg : Registry) (total : Int) :
    List PyStr → StepContext → List Event × List PyStr × Option StepContext
  | [], ctx => ([], [], some ctx)
  | name :: rest, ctx =>
    let ctx1 := incStepIndex ctx
    let pEvt := Event.progress name (getIntD ctx1.parameters "step_index".data 0) total
    match regLookup reg name with
    | none => ([pEvt, .error (stepErrorMsg name "KeyError".data)], [], none)
    | some info =>
      match info.process ctx1 with
      | .error e => ([pEvt, .error (stepErrorMsg name e)], [name], none)
      | .ok ctx2 =>
        let r := execLoop reg total rest ctx2
        (pEvt :: r.1, name :: r.2.1, r.2.2)

/-- The display-only total estimate (line 238): step count plus
pre-chunk count times candidate count. -/
def pipelineTotal (names : List PyStr) (chunks : List Chunk) (numCandidates : Nat) : Int :=
  (names.length : Int) + (chunks.length : Int) * (numCandidates : Int)

/-- The context entering the step loop: `is_multi_speaker` copied from
the first step's metadata (lines 227-231), and `step_index`,
`execution_id`, `total_steps` stored into `parameters`
(lines 251-253). -/
def pipelineStartCtx (reg : Registry) (ctx0 : StepContext) (names : List PyStr)
    (execId : PyStr) (total : Int) : StepContext :=
  let multi :=
    match names with
    | [] => ctx0.is_multi_speaker
    | n :: _ =>
      match regLookup reg n with
      | some info => info.multiSpeaker
      | none => ctx0.is_multi_speaker
  { ctx0 with
    is_multi_speaker := multi,
    parameters := (dictSet (dictSet (dictSet ctx0.parameters "step_index".data (.int 0))
      "execution_id".data (.str execId)) "total_steps".data (.int total)) }

/-- `_execute_steps_impl` (lines 190-344): pre-flight missing-step check
(one error event listing every missing name, nothing executed), then the
pre-chunk for the progress total (a raising pre-chunk reaches the outer
handler and becomes one error event), then the step loop; on success one
completion event followed by the final 100% progress event.  Returns the
event trace and the list of step names whose `process` ran.  `ctx0` is
the context built by `StepContext.from_request_parameters`. -/
def execute_steps_impl (reg : Registry) (ctx0 : StepContext) (names : List PyStr)
    (execId : PyStr) : List Event × List PyStr :=
  let missing := names.filter fun n => (regLookup reg n).isNone
  if ¬ missing.isEmpty then
    ([.error ("Steps not found: ".data ++ joinCommaSpace missing)], [])
  else
    match chunk_sentences ctx0.original_text_array ctx0.voice_clone_paths
        ctx0.audio_transcriptions (pyOrInt ctx0.approximate_min_chunk_length 20) with
    | .error e =>
      ([.error ("Unexpected error in background execution: ".data ++ e)], [])
    | .ok chunks =>
      let total := pipelineTotal names chunks ctx0.num_candidates
      match execLoop reg total names (pipelineStartCtx reg ctx0 names execId total) with
      | (evts, executed, none) => (evts, executed)
      | (evts, executed, some _) =>
        (evts ++ [.complete, .progress "Complete".data total total], executed)

/-- The synchronous part of the `/execute-background` endpoint
(lines 373-423): reject an empty step list or missing texts with an HTTP
400, otherwise schedule the background task and immediately return the
fresh execution id.  (The Python detail strings quote `texts`; quotes
elided.) -/
def execute_steps_background (texts steps : List PyStr) : Except (Nat × PyStr) Unit :=
  if steps.isEmpty then .error (400, "No steps provided".data)
  else if texts.isEmpty then .error (400, "texts must be provided".data)
  else .ok ()

/-- First `k` steps of the loop applied successfully in sequence:
`runPrefix reg names ctx k` is the context after the `k`-th success
(each iteration bumps `step_index` and then runs the step), or `none`
if some earlier step is missing or raises. -/
def runPrefix (reg : Registry) : List PyStr → StepContext → Nat → Option StepContext
  | _, ctx, 0 => some ctx
  | [], _, _ + 1 => none
  | n :: rest, ctx, k + 1 =>
    match regLookup reg n with
    | none => none
    | some info =>
      match info.process (incStepIndex ctx) with
      | .error _ => none
      | .ok c => runPrefix reg rest c k

/-! ### Candidate selection (`backend/steps/whisper_check.py`) -/

/-- One scored candidate: `(candidate_path, similarity, transcribed)`.
Similarity ratios are modelled as rationals. -/
structure CandScore where
  path : PyStr
  score : ℚ
  transcribed : PyStr
  deriving Repr, DecidableEq

/-- Python `max(l, key=key)`: the FIRST element attaining the maximal
key (later elements replace the running best only on strict
improvement). -/
def pyMaxBy {α : Type} {K : Type} [LinearOrder K] (key : α → K) : List α → Option α
  | [] => none
  | x :: xs => some (xs.foldl (fun b y => if key y > key b then y else b) x)

/-- The selection logic of `whisper_check.process` (lines 133-181):
candidates scoring at least `0.95` are preferred; among them the
first-maximal score wins; with no such candidate, the configured
fallback picks the first-maximal transcript length or (default) the
first-maximal score over all candidates. -/
def select_best (candidate_scores : List CandScore)
    (use_longest_transcript_on_fail : Bool) : Option CandScore :=
  let valid := candidate_scores.filter fun c => decide ((95 : ℚ)/100 ≤ c.score)
  if ¬ valid.isEmpty then pyMaxBy (fun c => c.score) valid
  else if use_longest_transcript_on_fail then
    pyMaxBy (fun c => c.transcribed.length) candidate_scores
  else pyMaxBy (fun c => c.score) candidate_scores

/-- `cleanup_candidates(candidates, exclude)` (lines 195-211): the paths
actually removed — every candidate path except those equal to a
non-empty `exclude` (Python truthiness of the string). -/
def cleanup_candidates (candidates : List PyStr) (exclude : PyStr) : List PyStr :=
  candidates.filter fun p => decide (¬ (exclude ≠ [] ∧ p = exclude))

/-- Outcome of the tail of `whisper_check.process` (lines 183-188). -/
structure WhisperOutcome where
  current_audio : PyStr
  deleted : List PyStr
  audio_candidates : List PyStr
  deriving Repr, DecidableEq

/-- Lines 133-188 of whisper_check.py: select the best candidate, make
it the context's current audio, delete the others, clear the candidate
list. -/
def whisper_process (candidate_scores : List CandScore)
    (use_longest_transcript_on_fail : Bool) : Option WhisperOutcome :=
  (select_best candidate_scores use_longest_transcript_on_fail).map fun best =>
    ⟨best.path, cleanup_candidates (candidate_scores.map fun c => c.path) best.path, []⟩

/-! ## Helper lemmas -/

/-- Setting a key and reading it back. -/
theorem dictGet_dictSet (d : Params) (k : PyStr) (v : PVal) :
    dictGet (dictSet d k v) k = some v := by
  induction d with
  | nil => simp [dictSet, dictGet]
  | cons kv rest ih =>
    obtain ⟨k0, v0⟩ := kv
    by_cases h : k0 = k
    · simp [dictSet, dictGet, h]
    · simp [dictSet, dictGet, h, ih]

/-- A sequential generation run hits the first failing candidate and
propagates its exception. -/
theorem seq_generate_error {α : Type} (gen : Nat → Except PyStr α) (e : PyStr) (i : Nat)
    (l1 l2 : List Nat) (hok : ∀ j ∈ l1, ∃ v, gen j = .ok v) (hfail : gen i = .error e) :
    seq_generate gen (l1 ++ i :: l2) = .error e := by
  induction l1 with
  | nil => simp [seq_generate, hfail]
  | cons j rest ih =>
    obtain ⟨v, hv⟩ := hok j (by simp)
    have ih2 := ih fun a ha => hok a (by simp [ha])
    simp only [List.cons_append, seq_generate, hv, List.append_eq, ih2]

/-- `List.range n` splits at any `i < n`. -/
theorem range_decomp (i : Nat) : ∀ n : Nat, i < n → ∃ l, List.range n = List.range i ++ i :: l := by
  intro n
  induction n with
  | zero => omega
  | succ m ih =>
    intro h
    rcases Nat.lt_succ_iff_lt_or_eq.mp h with h2 | h2
    · obtain ⟨l, hl⟩ := ih h2
      exact ⟨l ++ [m], by rw [List.range_succ, hl]; simp⟩
    · subst h2
      exact ⟨[], by rw [List.range_succ]⟩

/-- Every candidate of a fully successful sequential run is started. -/
theorem seq_attempts_all_ok {α : Type} (gen : Nat → Except PyStr α) :
    ∀ l : List Nat, (∀ k ∈ l, (gen k).isOk) → seq_attempts gen l = l.length := by
  intro l
  induction l with
  | nil => intro _; rfl
  | cons k rest ih =>
    intro h
    have hk := h k (by simp)
    cases hgen : gen k with
    | error e => rw [hgen] at hk; simp [Except.isOk, Except.toBool] at hk
    | ok v =>
      simp only [seq_attempts, hgen, List.length_cons]
      rw [ih (fun a ha => h a (by simp [ha]))]
      omega

/-! ## Claims -/

/-! ### C8 — chunker input validation -/

/-- C8: `chunk_sentences` raises a validation error whenever its three
input lists do not all have the same length, and for equal-length empty
inputs it returns an empty chunk list. -/
theorem chunker_validation_and_empty :
    (∀ (texts vcs vts : List PyStr) (minLen : Int),
        ¬ (texts.length = vcs.length ∧ texts.length = vts.length) →
        chunk_sentences texts vcs vts minLen =
          .error "All input lists must have the same length".data) ∧
    (∀ minLen : Int, chunk_sentences [] [] [] minLen = .ok []) := by
  constructor
  · intro texts vcs vts minLen h
    unfold chunk_sentences
    rw [if_pos (by tauto)]
  · intro minLen
    rfl

/-- Witness for C8 at concrete inputs. -/
theorem chunker_validation_and_empty_witness :
    chunk_sentences ["a".data] [] [] 5 =
        .error "All input lists must have the same length".data ∧
    chunk_sentences [] [] [] 7 = .ok [] :=
  ⟨chunker_validation_and_empty.1 ["a".data] [] [] 5 (by decide),
   chunker_validation_and_empty.2 7⟩

/-! ### C9 — per-candidate seed -/

/-- C9: when a base (actual) seed has been derived on the context, the
seed placed in the parameters sent to the generation backend for
candidate `candidate_idx` is the base seed plus the candidate index. -/
theorem candidate_seed_is_base_plus_index (parameters : Params) (s : Int)
    (candidate_idx : Nat) :
    dictGet (candidate_params parameters (some s) candidate_idx) "seed".data =
      some (.int (s + candidate_idx)) := by
  unfold candidate_params
  exact dictGet_dictSet parameters "seed".data (.int (s + candidate_idx))

/-! ### C2 — sentence reconstruction (trailing punctuation) -/

/-- C2 (failing evaluation): on `texts = ["Hi. Hi!"]` the splitter
re-attaches the punctuation found after the FIRST occurrence of the
repeated fragment `Hi`, so the second sentence comes back as `Hi.`
instead of `Hi!`; the chunker output therefore does not reconstruct the
original sentence sequence with each sentence's original trailing
punctuation run. -/
theorem split_loses_original_punctuation :
    split_into_sentences "Hi. Hi!".data = ["Hi.".data, "Hi.".data] ∧
    chunk_sentences ["Hi. Hi!".data] ["v".data] ["t".data] 0 =
      .ok [⟨["Hi.".data], ["v".data], ["t".data]⟩,
           ⟨["Hi.".data], ["v".data], ["t".data]⟩] ∧
    "Hi!".data ∉ split_into_sentences "Hi. Hi!".data := by
  refine ⟨by decide, by rfl, by decide⟩

/-! ### C1 — sequential vs parallel candidate survival -/

/-- A per-candidate outcome oracle whose first candidate fails. -/
def genFailFirst : Nat → Except PyStr PyStr := fun i =>
  if i = 0 then .error "boom".data else .ok "cand".data

/-- C1 (counterexample): with two candidates and parallel disabled, a
backend failure on candidate 0 aborts the whole generation step even
though candidate 1 survives, while the parallel branch on the same
outcomes drops the failed candidate and succeeds — the survival/failure
semantics differ. -/
theorem sequential_not_drop_and_continue :
    generate_candidates_with_service_calls ["x".data] ["v".data] ["t".data]
        false 2 genFailFirst = .error "boom".data ∧
    generate_candidates_with_service_calls ["x".data] ["v".data] ["t".data]
        true 2 genFailFirst = .ok ["cand".data] := by
  refine ⟨by rfl, by rfl⟩

/-- C1 (amended): in sequential mode (parallel disabled or a single
candidate), the first candidate failure propagates out of the generation
step immediately: the failed candidate is not dropped, later candidates
are not attempted, and the step fails even when other candidates would
survive. -/
theorem sequential_failure_propagates {α : Type} (gen : Nat → Except PyStr α)
    (texts vps ats : List PyStr)
    (hlen : texts.length = vps.length ∧ vps.length = ats.length)
    (enable_parallel : Bool) (n : Nat) (hmode : ¬ (enable_parallel = true ∧ 1 < n))
    (i : Nat) (hin : i < n) (e : PyStr)
    (hok : ∀ j, j < i → ∃ v, gen j = .ok v) (hfail : gen i = .error e) :
    generate_candidates_with_service_calls texts vps ats enable_parallel n gen =
      .error e := by
  unfold generate_candidates_with_service_calls
  rw [if_neg (by tauto)]
  have hbranch : (enable_parallel && decide (n > 1)) = false := by
    cases enable_parallel with
    | false => simp
    | true =>
      have hn : ¬ 1 < n := fun hlt => hmode ⟨rfl, hlt⟩
      simp [hn]
  rw [hbranch]
  simp only [Bool.false_eq_true, if_false]
  obtain ⟨l, hl⟩ := range_decomp i n hin
  rw [hl, seq_generate_error gen e i (List.range i) l
    (fun j hj => hok j (List.mem_range.mp hj)) hfail]

/-- Witness for C1's amended theorem: three candidates, candidate 0
fails, the step fails with that candidate's exception. -/
theorem sequential_failure_propagates_witness :
    generate_candidates_with_service_calls ["x".data] ["v".data] ["t".data]
      false 3 genFailFirst = .error "boom".data :=
  sequential_failure_propagates genFailFirst ["x".data] ["v".data] ["t".data]
    (by decide) false 3 (by decide) 0 (by decide) "boom".data
    (fun j hj => absurd hj (Nat.not_lt_zero j)) (by rfl)

/-! ### C3 — unknown step names -/

/-- A registry with a single well-behaved step, for concrete runs. -/
def demoRegistry : Registry := [("real_step".data, ⟨fun c => .ok c, false⟩)]

/-- A small concrete execution context. -/
def demoCtx : StepContext :=
  { original_text_array := ["x one".data],
    multiple_speaker_text_array := ["x one".data],
    voice_clone_paths := ["v".data],
    audio_transcriptions := ["t".data] }

/-- C3 (counterexample): a request whose step list names an unknown step
is ACCEPTED synchronously (the endpoint returns the execution id), and
the validation error is only emitted later by the background task
through the notification sink — it is not surfaced synchronously to the
caller before background work starts. -/
theorem unknown_step_accepted_synchronously :
    execute_steps_background ["x one".data] ["missing_step".data] = .ok () ∧
    execute_steps_impl demoRegistry demoCtx ["missing_step".data] "eid".data =
      ([.error "Steps not found: missing_step".data], []) := by
  refine ⟨by rfl, by rfl⟩

/-- C3 (amended): a run whose step list contains unresolved names fails
with a single validation error event listing all missing names and
executes no step's process function; but this error is delivered
asynchronously by the background task, after the caller has already
synchronously received the execution id (only an empty step list or
missing texts are rejected synchronously). -/
theorem missing_steps_single_error_no_execution
    (reg : Registry) (ctx0 : StepContext) (names : List PyStr) (execId : PyStr)
    (texts : List PyStr)
    (hmiss : ∃ n ∈ names, regLookup reg n = none)
    (hnames : names ≠ []) (htexts : texts ≠ []) :
    execute_steps_background texts names = .ok () ∧
    execute_steps_impl reg ctx0 names execId =
      ([.error ("Steps not found: ".data ++
        joinCommaSpace (names.filter fun n => (regLookup reg n).isNone))], []) := by
  constructor
  · unfold execute_steps_background
    rw [if_neg (by simp [hnames]), if_neg (by simp [htexts])]
  · have hcond : ¬ (names.filter fun n => (regLookup reg n).isNone).isEmpty := by
      obtain ⟨n, hn, hnone⟩ := hmiss
      intro hempty
      rw [List.isEmpty_iff, List.filter_eq_nil_iff] at hempty
      exact hempty n hn (by simp [hnone])
    unfold execute_steps_impl
    rw [if_pos hcond]

/-- Witness for C3's amended theorem at a concrete request with two
unknown names among three. -/
theorem missing_steps_single_error_no_execution_witness :
    execute_steps_background ["x one".data] ["ghost".data, "real_step".data, "phantom".data] = .ok () ∧
    execute_steps_impl demoRegistry demoCtx
        ["ghost".data, "real_step".data, "phantom".data] "eid".data =
      ([.error ("Steps not found: ".data ++
        joinCommaSpace ((["ghost".data, "real_step".data, "phantom".data] :
          List PyStr).filter fun n => (regLookup demoRegistry n).isNone))], []) :=
  missing_steps_single_error_no_execution demoRegistry demoCtx
    ["ghost".data, "real_step".data, "phantom".data] "eid".data ["x one".data]
    ⟨"ghost".data, by decide, by rfl⟩ (by decide) (by decide)

/-! ### C6 — chunking once per invocation vs per candidate -/

/-- A per-candidate oracle in which every candidate succeeds. -/
def genAllOk : Nat → Except PyStr PyStr := fun _ => .ok "cand".data

/-- C6 (counterexample): within one generation invocation with two
candidates (sequential, all successful), the chunker is invoked twice —
once inside each candidate's `generate_single_candidate_via_service`
call — not once per invocation. -/
theorem chunker_invoked_per_candidate :
    chunker_invocations false 2 genAllOk = 2 ∧ (2 : Nat) ≠ 1 := by
  refine ⟨by decide, by decide⟩

/-- C6 (amended): the inputs are chunked once per candidate, not once
per invocation; every started candidate runs the chunker exactly once,
and because the chunk sequence is computed by a pure function of the
context's voice-clone paths, the input texts/transcriptions and the
configured minimum chunk length (with `or 20` defaulting), every
candidate uses the identical chunk sequence. -/
theorem chunk_sequence_identical_across_candidates
    (ctx : StepContext) (testing : Bool) (texts ats : List PyStr) (i j : Nat) :
    candidate_chunk_sequence ctx testing texts ats i =
      candidate_chunk_sequence ctx testing texts ats j ∧
    (∀ (n : Nat) (gen : Nat → Except PyStr PyStr),
        (∀ k, k < n → (gen k).isOk) → chunker_invocations false n gen = n) ∧
    (∀ (n : Nat) (gen : Nat → Except PyStr PyStr),
        1 < n → chunker_invocations true n gen = n) := by
  refine ⟨rfl, ?_, ?_⟩
  · intro n gen h
    unfold chunker_invocations
    simp only [Bool.false_and, Bool.false_eq_true, if_false]
    rw [seq_attempts_all_ok gen (List.range n)
      (fun k hk => h k (List.mem_range.mp hk)), List.length_range]
  · intro n gen h
    unfold chunker_invocations
    rw [if_pos (by simp; omega)]

/-! ### C4 — quality-gated selection -/

/-- `c` is the first maximum of `l` under `key`: it occurs in `l`, every
element strictly before its first qualifying occurrence has a strictly
smaller key, and every other element's key is no larger — exactly
"highest value, ties broken by earliest index". -/
inductive FirstMaxBy {α : Type} {K : Type} [LinearOrder K] (key : α → K) :
    List α → α → Prop where
  | head {c : α} {l : List α} : (∀ x ∈ l, key x ≤ key c) → FirstMaxBy key (c :: l) c
  | cons {x c : α} {l : List α} : key x < key c → FirstMaxBy key l c →
      FirstMaxBy key (x :: l) c

/-- A first maximum dominates every element of the list. -/
theorem FirstMaxBy_le {α K : Type} [LinearOrder K] {key : α → K} {l : List α} {c : α}
    (h : FirstMaxBy key l c) : ∀ x ∈ l, key x ≤ key c := by
  induction h with
  | head hb =>
    intro x hx
    rcases List.mem_cons.mp hx with rfl | hx
    · exact le_refl _
    · exact hb x hx
  | cons hlt _ ih =>
    intro x hx
    rcases List.mem_cons.mp hx with rfl | hx
    · exact le_of_lt hlt
    · exact ih x hx

/-- A first maximum is a member of the list. -/
theorem FirstMaxBy_mem {α K : Type} [LinearOrder K] {key : α → K} {l : List α} {c : α}
    (h : FirstMaxBy key l c) : c ∈ l := by
  induction h with
  | head _ => exact List.mem_cons_self _ _
  | cons _ _ ih => exact List.mem_cons_of_mem _ ih

/-- Inserting a dominated element right after the head preserves the
first maximum. -/
theorem FirstMaxBy_shift {α K : Type} [LinearOrder K] {key : α → K} {a y c : α}
    {l : List α} (h : FirstMaxBy key (a :: l) c) (hy : key y ≤ key a) :
    FirstMaxBy key (a :: y :: l) c := by
  cases h with
  | head hb =>
    refine .head ?_
    intro x hx
    rcases List.mem_cons.mp hx with rfl | hx
    · exact hy
    · exact hb x hx
  | cons hlt h2 =>
    exact .cons hlt (.cons (lt_of_le_of_lt hy hlt) h2)

/-- Python `max(key=...)` (a left fold keeping the current best on
ties) returns the first maximum. -/
theorem pyMaxBy_foldl_firstMax {α K : Type} [LinearOrder K] (key : α → K) :
    ∀ (xs : List α) (a : α),
      FirstMaxBy key (a :: xs) (xs.foldl (fun b y => if key y > key b then y else b) a) := by
  intro xs
  induction xs with
  | nil => intro a; exact .head (by simp)
  | cons y ys ih =>
    intro a
    simp only [List.foldl_cons]
    by_cases hy : key y > key a
    · rw [if_pos hy]
      have h2 := ih y
      have hle : key y ≤ key (ys.foldl (fun b y => if key y > key b then y else b) y) :=
        FirstMaxBy_le h2 y (by simp)
      exact .cons (lt_of_lt_of_le hy hle) h2
    · rw [if_neg hy]
      exact FirstMaxBy_shift (ih a) (le_of_not_lt hy)

/-- `pyMaxBy` of a non-empty list returns its first maximum. -/
theorem pyMaxBy_spec {α K : Type} [LinearOrder K] (key : α → K) (l : List α)
    (h : l ≠ []) : ∃ c, pyMaxBy key l = some c ∧ FirstMaxBy key l c := by
  cases l with
  | nil => exact absurd rfl h
  | cons a xs => exact ⟨_, rfl, pyMaxBy_foldl_firstMax key xs a⟩

/-- If every element rejected by the filter has a strictly smaller key
than `c`, a first maximum of the filtered list is a first maximum of the
whole list. -/
theorem FirstMaxBy_of_filter {α K : Type} [LinearOrder K] (key : α → K) (p : α → Bool)
    {c : α} : ∀ l : List α, (∀ x ∈ l, p x = false → key x < key c) →
      FirstMaxBy key (l.filter p) c → FirstMaxBy key l c := by
  intro l
  induction l with
  | nil =>
    intro _ h
    rw [List.filter_nil] at h
    cases h
  | cons a as ih =>
    intro hlt h
    by_cases hp : p a
    · rw [List.filter_cons_of_pos hp] at h
      cases h with
      | head hb =>
        refine .head ?_
        intro x hx
        by_cases hpx : p x
        · exact hb x (List.mem_filter.mpr ⟨hx, hpx⟩)
        · exact le_of_lt (hlt x (by simp [hx]) (by simpa using hpx))
      | cons hlt2 h2 =>
        exact .cons hlt2 (ih (fun x hx hpx => hlt x (by simp [hx]) hpx) h2)
    · rw [List.filter_cons_of_neg (by simpa using hp)] at h
      exact .cons (hlt a (by simp) (by simpa using hp))
        (ih (fun x hx hpx => hlt x (by simp [hx]) hpx) h)

/-- C4: for every non-empty list of scored candidates, the selection of
`whisper_check.process` picks — when some candidate scores at least
`0.95` — the highest-scoring candidate with ties broken by earliest
index; otherwise the configured fallback (longest transcript, or by
default highest score, same tie-break).  Every non-selected candidate
path is deleted by `cleanup_candidates` and the selected path becomes
the context's current audio. -/
theorem whisper_selection_and_cleanup (candidate_scores : List CandScore)
    (use_longest_transcript_on_fail : Bool) (hne : candidate_scores ≠ []) :
    ∃ best, select_best candidate_scores use_longest_transcript_on_fail = some best ∧
      whisper_process candidate_scores use_longest_transcript_on_fail =
        some ⟨best.path,
          cleanup_candidates (candidate_scores.map fun c => c.path) best.path, []⟩ ∧
      ((∃ c ∈ candidate_scores, (95 : ℚ)/100 ≤ c.score) →
        FirstMaxBy (fun c => c.score) candidate_scores best) ∧
      ((∀ c ∈ candidate_scores, c.score < (95 : ℚ)/100) →
        (use_longest_transcript_on_fail = true →
          FirstMaxBy (fun c => c.transcribed.length) candidate_scores best) ∧
        (use_longest_transcript_on_fail = false →
          FirstMaxBy (fun c => c.score) candidate_scores best)) ∧
      (best.path ≠ [] →
        cleanup_candidates (candidate_scores.map fun c => c.path) best.path =
          (candidate_scores.map fun c => c.path).filter fun p => decide (p ≠ best.path)) := by
  have hclean : ∀ best : CandScore, best.path ≠ [] →
      cleanup_candidates (candidate_scores.map fun c => c.path) best.path =
        (candidate_scores.map fun c => c.path).filter fun p => decide (p ≠ best.path) := by
    intro best hbp
    unfold cleanup_candidates
    refine List.filter_congr ?_
    intro p _
    refine decide_eq_decide.mpr ?_
    constructor
    · intro hnp hpe
      exact hnp ⟨hbp, hpe⟩
    · intro hnp hand
      exact hnp hand.2
  by_cases hv : (candidate_scores.filter fun c => decide ((95 : ℚ)/100 ≤ c.score)).isEmpty = true
  · have hall : ∀ c ∈ candidate_scores, c.score < (95 : ℚ)/100 := by
      rw [List.isEmpty_iff, List.filter_eq_nil_iff] at hv
      intro c hc
      have := hv c hc
      simpa using this
    cases hlong : use_longest_transcript_on_fail with
    | true =>
      obtain ⟨best, hmax, hfm⟩ := pyMaxBy_spec (fun c => c.transcribed.length) _ hne
      have hsel : select_best candidate_scores true = some best := by
        unfold select_best
        rw [if_neg (by simp [hv]), if_pos rfl]
        exact hmax
      refine ⟨best, hsel, ?_, ?_, ?_, hclean best⟩
      · unfold whisper_process
        rw [hsel]
        rfl
      · rintro ⟨c, hc, hge⟩
        exact absurd hge (not_le.mpr (hall c hc))
      · exact fun _ => ⟨fun _ => hfm, fun hff => absurd hff (by decide)⟩
    | false =>
      obtain ⟨best, hmax, hfm⟩ := pyMaxBy_spec (fun c => c.score) _ hne
      have hsel : select_best candidate_scores false = some best := by
        unfold select_best
        rw [if_neg (by simp [hv])]
        exact hmax
      refine ⟨best, hsel, ?_, ?_, ?_, hclean best⟩
      · unfold whisper_process
        rw [hsel]
        rfl
      · rintro ⟨c, hc, hge⟩
        exact absurd hge (not_le.mpr (hall c hc))
      · exact fun _ => ⟨fun htt => absurd htt (by decide), fun _ => hfm⟩
  · have hvne : (candidate_scores.filter fun c => decide ((95 : ℚ)/100 ≤ c.score)) ≠ [] := by
      intro h0
      rw [h0] at hv
      exact hv rfl
    obtain ⟨best, hmax, hfm⟩ := pyMaxBy_spec (fun c => c.score) _ hvne
    have hbest : (95 : ℚ)/100 ≤ best.score := by
      have hmem := FirstMaxBy_mem hfm
      rw [List.mem_filter] at hmem
      simpa using hmem.2
    have hfull : FirstMaxBy (fun c => c.score) candidate_scores best := by
      refine FirstMaxBy_of_filter (fun c => c.score) _ candidate_scores ?_ hfm
      intro x _ hpx
      have : ¬ (95 : ℚ)/100 ≤ x.score := by simpa using hpx
      exact lt_of_lt_of_le (not_le.mp this) hbest
    have hsel : select_best candidate_scores use_longest_transcript_on_fail = some best := by
      unfold select_best
      rw [if_pos hv]
      exact hmax
    refine ⟨best, hsel, ?_, fun _ => hfull, ?_, hclean best⟩
    · unfold whisper_process
      rw [hsel]
      rfl
    · intro hall
      exfalso
      obtain ⟨c, hc⟩ := List.exists_mem_of_ne_nil _ hvne
      rw [List.mem_filter] at hc
      exact absurd (by simpa using hc.2) (not_le.mpr (hall c hc.1))

/-- Scored candidates mirroring the spec's selection scenario
(`[0.50, 0.97, 0.80]`, threshold `0.95`). -/
def demoScores : List CandScore :=
  [⟨"a".data, 1/2, "xx".data⟩, ⟨"b".data, 97/100, "yy".data⟩, ⟨"c".data, 4/5, "z".data⟩]

/-- Witness for C4 at the spec's selection scenario. -/
theorem whisper_selection_and_cleanup_witness :
    ∃ best, select_best demoScores false = some best ∧
      whisper_process demoScores false =
        some ⟨best.path, cleanup_candidates (demoScores.map fun c => c.path) best.path, []⟩ ∧
      ((∃ c ∈ demoScores, (95 : ℚ)/100 ≤ c.score) →
        FirstMaxBy (fun c => c.score) demoScores best) ∧
      ((∀ c ∈ demoScores, c.score < (95 : ℚ)/100) →
        ((false : Bool) = true → FirstMaxBy (fun c => c.transcribed.length) demoScores best) ∧
        ((false : Bool) = false → FirstMaxBy (fun c => c.score) demoScores best)) ∧
      (best.path ≠ [] →
        cleanup_candidates (demoScores.map fun c => c.path) best.path =
          (demoScores.map fun c => c.path).filter fun p => decide (p ≠ best.path)) :=
  whisper_selection_and_cleanup demoScores false (by simp [demoScores])

/-! ### C5 — a raising step stops the pipeline -/

/-- A completion event never occurs among progress events. -/
theorem complete_not_mem_zipWith (total : Int) :
    ∀ (l1 : List PyStr) (l2 : List Int),
      Event.complete ∉ List.zipWith (fun n i => Event.progress n i total) l1 l2 := by
  intro l1
  induction l1 with
  | nil => intro l2; simp
  | cons n rest ih =>
    intro l2
    cases l2 with
    | nil => simp
    | cons i is =>
      simp only [List.zipWith_cons_cons, List.mem_cons]
      push_neg
      exact ⟨by simp, ih is⟩

/-- If the first `j` steps succeed and step `j` (0-based) raises, the
step loop emits one progress event per step `0..j` (in order, named
after the steps), then exactly one error event, and runs exactly the
processes of steps `0..j`. -/
theorem execLoop_fail (reg : Registry) (total : Int) (info : StepInfo) (e : PyStr) :
    ∀ (j : Nat) (names : List PyStr) (ctx ctxj : StepContext) (hj : j < names.length),
      (∀ n ∈ names, (regLookup reg n).isSome) →
      runPrefix reg names ctx j = some ctxj →
      regLookup reg (names.get ⟨j, hj⟩) = some info →
      info.process (incStepIndex ctxj) = .error e →
      ∃ idxs : List Int, idxs.length = j + 1 ∧
        execLoop reg total names ctx =
          (List.zipWith (fun n i => Event.progress n i total) (names.take (j + 1)) idxs ++
            [.error (stepErrorMsg (names.get ⟨j, hj⟩) e)],
           names.take (j + 1), none) := by
  intro j
  induction j with
  | zero =>
    intro names ctx ctxj hj hres hpre hlook hfail
    cases names with
    | nil => simp at hj
    | cons n rest =>
      have hcx : ctxj = ctx := by simpa [runPrefix] using hpre.symm
      rw [hcx] at hfail
      refine ⟨[getIntD (incStepIndex ctx).parameters "step_index".data 0], rfl, ?_⟩
      have hget : (n :: rest).get ⟨0, hj⟩ = n := rfl
      rw [hget] at hlook
      simp only [execLoop, hlook, hfail, hget]
      simp
  | succ k ih =>
    intro names ctx ctxj hj hres hpre hlook hfail
    cases names with
    | nil => simp at hj
    | cons n rest =>
      have hn := hres n (by simp)
      obtain ⟨info0, hinfo0⟩ := Option.isSome_iff_exists.mp hn
      have hpre2 := hpre
      simp only [runPrefix, hinfo0] at hpre2
      cases hproc : info0.process (incStepIndex ctx) with
      | error e0 =>
        rw [hproc] at hpre2
        simp at hpre2
      | ok c1 =>
        rw [hproc] at hpre2
        have hjk : k < rest.length := by
          simp at hj
          omega
        have hget : (n :: rest).get ⟨k + 1, hj⟩ = rest.get ⟨k, hjk⟩ := rfl
        rw [hget] at hlook
        obtain ⟨idxs, hlen, hloop⟩ :=
          ih rest c1 ctxj hjk (fun a ha => hres a (by simp [ha])) hpre2 hlook hfail
        refine ⟨getIntD (incStepIndex ctx).parameters "step_index".data 0 :: idxs,
          by simp [hlen], ?_⟩
        simp only [execLoop, hinfo0, hproc, hloop, hget]
        simp [List.take_succ_cons]

/-- C5: in a run whose step names all resolve and whose pre-chunk
succeeds, if the first `j` steps succeed and step `j` (0-based; step
`j+1` of `n` 1-based) raises, then the engine emits progress events
exactly for steps `0..j`, exactly one error event, no completion event,
and the processes executed are exactly those of steps `0..j` — none of
the later steps runs. -/
theorem step_failure_stops_pipeline (reg : Registry) (ctx0 : StepContext)
    (names : List PyStr) (execId : PyStr) (j : Nat) (hj : j < names.length)
    (hres : ∀ n ∈ names, (regLookup reg n).isSome)
    (chunks : List Chunk)
    (hchunk : chunk_sentences ctx0.original_text_array ctx0.voice_clone_paths
        ctx0.audio_transcriptions (pyOrInt ctx0.approximate_min_chunk_length 20) = .ok chunks)
    (ctxj : StepContext) (info : StepInfo) (e : PyStr)
    (hpre : runPrefix reg names (pipelineStartCtx reg ctx0 names execId
        (pipelineTotal names chunks ctx0.num_candidates)) j = some ctxj)
    (hlook : regLookup reg (names.get ⟨j, hj⟩) = some info)
    (hfail : info.process (incStepIndex ctxj) = .error e) :
    ∃ idxs : List Int, idxs.length = j + 1 ∧
      execute_steps_impl reg ctx0 names execId =
        (List.zipWith (fun n i => Event.progress n i
            (pipelineTotal names chunks ctx0.num_candidates)) (names.take (j + 1)) idxs ++
          [.error (stepErrorMsg (names.get ⟨j, hj⟩) e)],
         names.take (j + 1)) ∧
      Event.complete ∉ (execute_steps_impl reg ctx0 names execId).1 := by
  have hmiss : (names.filter fun n => (regLookup reg n).isNone) = [] := by
    rw [List.filter_eq_nil_iff]
    intro a ha
    have h2 := hres a ha
    cases hcase : regLookup reg a with
    | none => rw [hcase] at h2; simp at h2
    | some v => simp
  obtain ⟨idxs, hlen, hloop⟩ :=
    execLoop_fail reg (pipelineTotal names chunks ctx0.num_candidates) info e j names
      (pipelineStartCtx reg ctx0 names execId (pipelineTotal names chunks ctx0.num_candidates))
      ctxj hj hres hpre hlook hfail
  have himpl : execute_steps_impl reg ctx0 names execId =
      (List.zipWith (fun n i => Event.progress n i
          (pipelineTotal names chunks ctx0.num_candidates)) (names.take (j + 1)) idxs ++
        [.error (stepErrorMsg (names.get ⟨j, hj⟩) e)],
       names.take (j + 1)) := by
    unfold execute_steps_impl
    rw [if_neg (by simp [hmiss]), hchunk]
    simp only [hloop]
  refine ⟨idxs, hlen, himpl, ?_⟩
  rw [himpl]
  intro hmem
  rw [List.mem_append] at hmem
  rcases hmem with hmem | hmem
  · exact complete_not_mem_zipWith _ _ _ hmem
  · simp at hmem

/-- A registry in which the first step succeeds and the second raises. -/
def demoReg2 : Registry :=
  [("alpha".data, ⟨fun c => .ok c, false⟩),
   ("beta".data, ⟨fun _ => .error "boom".data, false⟩)]

/-- The pre-chunk of `demoCtx`'s arrays at its default word bound. -/
def demoChunks : List Chunk := [⟨["x one".data], ["v".data], ["t".data]⟩]

/-- Witness for C5: step 2 of 2 raises; the trace is progress for steps
1-2 and one error, with no completion event and only the two processes
run. -/
theorem step_failure_stops_pipeline_witness :
    ∃ idxs : List Int, idxs.length = 2 ∧
      execute_steps_impl demoReg2 demoCtx ["alpha".data, "beta".data] "eid".data =
        (List.zipWith (fun n i => Event.progress n i
            (pipelineTotal ["alpha".data, "beta".data] demoChunks demoCtx.num_candidates))
          ((["alpha".data, "beta".data] : List PyStr).take 2) idxs ++
          [.error (stepErrorMsg
            ((["alpha".data, "beta".data] : List PyStr).get ⟨1, by decide⟩) "boom".data)],
         (["alpha".data, "beta".data] : List PyStr).take 2) ∧
      Event.complete ∉
        (execute_steps_impl demoReg2 demoCtx ["alpha".data, "beta".data] "eid".data).1 :=
  step_failure_stops_pipeline demoReg2 demoCtx ["alpha".data, "beta".data] "eid".data 1
    (by decide) (by decide) demoChunks (by rfl)
    (incStepIndex (pipelineStartCtx demoReg2 demoCtx ["alpha".data, "beta".data] "eid".data
      (pipelineTotal ["alpha".data, "beta".data] demoChunks demoCtx.num_candidates)))
    ⟨fun _ => .error "boom".data, false⟩ "boom".data (by rfl) (by rfl) (by rfl)

/-! ### C7 — long sentences are isolated; minWords = 0 -/

/-- Splitting off the final flush: `combine_minis` is the emitted chunk
list of the loop followed by the flush of the final state (also when the
mini-unit list is empty). -/
theorem combine_minis_eq (minLen : Int) (minis : List Mini) :
    combine_minis minLen minis =
      (chunkFold minLen minis initChunkState).1 ++
        flushChunk (chunkFold minLen minis initChunkState).2.cur := by
  unfold combine_minis
  cases minis with
  | nil => simp [chunkFold, flushChunk, initChunkState, emptyChunk]
  | cons m rest => rw [if_neg (by simp)]

/-- The loop distributes over list append. -/
theorem chunkFold_append (minLen : Int) (xs ys : List Mini) :
    ∀ st, chunkFold minLen (xs ++ ys) st =
      ((chunkFold minLen xs st).1 ++
        (chunkFold minLen ys (chunkFold minLen xs st).2).1,
       (chunkFold minLen ys (chunkFold minLen xs st).2).2) := by
  induction xs with
  | nil => intro st; simp [chunkFold]
  | cons m rest ih =>
    intro st
    simp only [List.cons_append, chunkFold, List.append_eq]
    rw [ih]
    simp [List.append_assoc]

/-- A mini-unit whose own word count reaches the bound flushes the
current chunk and is emitted alone; the state resets. -/
theorem chunkStep_isolates (minLen : Int) (st : ChunkState) (m : Mini)
    (h : (count_words m.text : Int) ≥ minLen) :
    chunkStep minLen st m =
      (flushChunk st.cur ++ [⟨[m.text], [m.voice_clone], [m.voice_transcription]⟩],
       initChunkState) := by
  unfold chunkStep
  rw [if_pos h]

/-- With bound `0` every mini-unit is emitted as its own singleton chunk
and the state never accumulates. -/
theorem chunkFold_zero (minis : List Mini) :
    chunkFold 0 minis initChunkState =
      (minis.map fun m => Chunk.mk [m.text] [m.voice_clone] [m.voice_transcription],
       initChunkState) := by
  induction minis with
  | nil => rfl
  | cons m rest ih =>
    simp only [chunkFold, List.map_cons,
      chunkStep_isolates 0 initChunkState m (by positivity), ih]
    simp [flushChunk, initChunkState, emptyChunk]

/-- The number of mini-units equals the total sentence count over all
inputs. -/
theorem mini_chunks_length (texts vcs vts : List PyStr)
    (h1 : texts.length = vcs.length) (h2 : texts.length = vts.length) :
    (mini_chunks_of texts vcs vts).length =
      (texts.map fun t => (split_into_sentences t).length).sum := by
  unfold mini_chunks_of
  rw [List.length_flatMap]
  have hz : (texts.zip (vcs.zip vts)).map Prod.fst = texts :=
    List.map_fst_zip _ _ (by rw [List.length_zip]; omega)
  calc ((texts.zip (vcs.zip vts)).map fun p =>
          ((split_into_sentences p.1).map fun s => Mini.mk s p.2.1 p.2.2).length).sum
      = ((texts.zip (vcs.zip vts)).map fun p => (split_into_sentences p.1).length).sum := by
        simp
    _ = (((texts.zip (vcs.zip vts)).map Prod.fst).map fun t =>
          (split_into_sentences t).length).sum := by rw [List.map_map]; rfl
    _ = (texts.map fun t => (split_into_sentences t).length).sum := by rw [hz]

/-- C7: every mini-unit whose own word count is at least `minWords` is
emitted alone as a singleton chunk, never merged with any neighbour —
the output around it is the chunking of what precedes it followed by the
singleton followed by the chunking-from-scratch of what follows; and
with `minWords = 0` the number of returned chunks equals the total
number of sentences across all inputs. -/
theorem isolated_sentences_and_minzero_count :
    (∀ (minLen : Int) (xs ys : List Mini) (m : Mini),
        (count_words m.text : Int) ≥ minLen →
        combine_minis minLen (xs ++ m :: ys) =
          ((chunkFold minLen xs initChunkState).1 ++
            flushChunk (chunkFold minLen xs initChunkState).2.cur) ++
          Chunk.mk [m.text] [m.voice_clone] [m.voice_transcription] ::
            combine_minis minLen ys) ∧
    (∀ texts vcs vts : List PyStr,
        texts.length = vcs.length → texts.length = vts.length →
        ∃ l, chunk_sentences texts vcs vts 0 = .ok l ∧
          l.length = (texts.map fun t => (split_into_sentences t).length).sum) := by
  constructor
  · intro minLen xs ys m h
    rw [combine_minis_eq, combine_minis_eq, chunkFold_append]
    simp only [chunkFold]
    rw [chunkStep_isolates minLen _ m h]
    simp [List.append_assoc]
  · intro texts vcs vts h1 h2
    by_cases he : texts.isEmpty
    · rw [List.isEmpty_iff] at he
      subst he
      refine ⟨[], ?_, by simp⟩
      unfold chunk_sentences
      rw [if_neg (by tauto), if_pos (by simp)]
    · refine ⟨combine_minis 0 (mini_chunks_of texts vcs vts), ?_, ?_⟩
      · unfold chunk_sentences
        rw [if_neg (by tauto), if_neg he]
      · rw [combine_minis_eq, chunkFold_zero]
        simp [flushChunk, initChunkState, emptyChunk, mini_chunks_length texts vcs vts h1 h2]

/-- Witness for C7 at concrete inputs: a 3-word sentence with
`minWords = 3` is isolated between its neighbours, and `minWords = 0`
gives one chunk per sentence. -/
theorem isolated_sentences_and_minzero_count_witness :
    combine_minis 3
        ([⟨"Hi.".data, "a".data, "x".data⟩] ++
          ⟨"One two three.".data, "a".data, "x".data⟩ ::
          [⟨"Bye.".data, "a".data, "x".data⟩]) =
      ((chunkFold 3 [⟨"Hi.".data, "a".data, "x".data⟩] initChunkState).1 ++
        flushChunk (chunkFold 3 [⟨"Hi.".data, "a".data, "x".data⟩] initChunkState).2.cur) ++
      Chunk.mk ["One two three.".data] ["a".data] ["x".data] ::
        combine_minis 3 [⟨"Bye.".data, "a".data, "x".data⟩] ∧
    ∃ l, chunk_sentences ["Hey! Hi.".data, "Yo.".data] ["a".data, "b".data]
        ["x".data, "y".data] 0 = .ok l ∧
      l.length = ((["Hey! Hi.".data, "Yo.".data] : List PyStr).map fun t =>
        (split_into_sentences t).length).sum :=
  ⟨isolated_sentences_and_minzero_count.1 3 [⟨"Hi.".data, "a".data, "x".data⟩]
      [⟨"Bye.".data, "a".data, "x".data⟩] ⟨"One two three.".data, "a".data, "x".data⟩
      (by decide),
   isolated_sentences_and_minzero_count.2 ["Hey! Hi.".data, "Yo.".data]
      ["a".data, "b".data] ["x".data, "y".data] (by decide) (by decide)⟩

/-! ### C10 — chunk shape invariant -/

/-- `appendToLast` preserves the length of the entry list. -/
theorem appendToLast_length (s : PyStr) :
    ∀ l : List PyStr, (appendToLast l s).length = l.length
  | [] => rfl
  | [_] => rfl
  | x :: y :: xs => by
    simp only [appendToLast, List.length_cons]
    rw [appendToLast_length s (y :: xs)]
    simp

/-- The well-formedness invariant of an emitted chunk: non-empty text
list and parallel lists of the same length. -/
def chunkWF (c : Chunk) : Prop :=
  c.texts ≠ [] ∧ c.voice_clones.length = c.texts.length ∧
    c.voice_transcriptions.length = c.texts.length

/-- The invariant of the loop state: the current chunk's three lists
have equal length (the text list may be empty). -/
def stateWF (st : ChunkState) : Prop :=
  st.cur.voice_clones.length = st.cur.texts.length ∧
    st.cur.voice_transcriptions.length = st.cur.texts.length

/-- Flushing a state-invariant chunk only ever emits well-formed
chunks. -/
theorem flushChunk_wf (d : Chunk) (h1 : d.voice_clones.length = d.texts.length)
    (h2 : d.voice_transcriptions.length = d.texts.length) :
    ∀ c ∈ flushChunk d, chunkWF c := by
  intro c hc
  by_cases hd : d.texts.isEmpty
  · simp [flushChunk, hd] at hc
  · simp [flushChunk, hd] at hc
    subst hc
    refine ⟨?_, h1, h2⟩
    simpa [List.isEmpty_iff] using hd

/-- One loop iteration preserves the state invariant and emits only
well-formed chunks. -/
theorem chunkStep_wf (minLen : Int) (st : ChunkState) (m : Mini) (h : stateWF st) :
    (∀ c ∈ (chunkStep minLen st m).1, chunkWF c) ∧ stateWF (chunkStep minLen st m).2 := by
  obtain ⟨h1, h2⟩ := h
  unfold chunkStep
  split_ifs with hbig hfit hsame hsame2
  · refine ⟨?_, rfl, rfl⟩
    intro c hc
    rw [List.mem_append] at hc
    rcases hc with hc | hc
    · exact flushChunk_wf st.cur h1 h2 c hc
    · simp at hc
      subst hc
      exact ⟨by simp, rfl, rfl⟩
  · refine ⟨?_, rfl, rfl⟩
    intro c hc
    simp at hc
    subst hc
    have hne : st.cur.texts ≠ [] := by
      have hb : ((st.wc + count_words m.text : Nat) : Int) ≥ minLen ∧ st.cur.texts ≠ [] := by
        simpa using hfit
      exact hb.2
    refine ⟨?_, by simp [mergeLast, appendToLast_length, h1],
      by simp [mergeLast, appendToLast_length, h2]⟩
    intro hnil
    have hlen := appendToLast_length (' ' :: m.text) st.cur.texts
    rw [show appendToLast st.cur.texts (' ' :: m.text) = (mergeLast st.cur m).texts from rfl,
      hnil] at hlen
    exact hne (List.length_eq_zero.mp hlen.symm)
  · refine ⟨?_, rfl, rfl⟩
    intro c hc
    simp at hc
    subst hc
    exact ⟨by simp [appendEntry], by simp [appendEntry, h1], by simp [appendEntry, h2]⟩
  · exact ⟨by simp, by simp [stateWF, mergeLast, appendToLast_length, h1, h2]⟩
  · exact ⟨by simp, by simp [stateWF, appendEntry, h1, h2]⟩

/-- The loop preserves the invariants over any mini-unit list. -/
theorem chunkFold_wf (minLen : Int) :
    ∀ (minis : List Mini) (st : ChunkState), stateWF st →
      (∀ c ∈ (chunkFold minLen minis st).1, chunkWF c) ∧
        stateWF (chunkFold minLen minis st).2 := by
  intro minis
  induction minis with
  | nil => intro st h; exact ⟨by simp [chunkFold], h⟩
  | cons m rest ih =>
    intro st h
    obtain ⟨hstep, hst2⟩ := chunkStep_wf minLen st m h
    obtain ⟨hrest, hfin⟩ := ih _ hst2
    refine ⟨?_, hfin⟩
    intro c hc
    simp only [chunkFold, List.mem_append] at hc
    rcases hc with hc | hc
    · exact hstep c hc
    · exact hrest c hc

/-- C10: every chunk returned by `chunk_sentences` has a non-empty
`texts` list, and its `voice_clones` and `voice_transcriptions` lists
each have the same length as `texts`. -/
theorem chunk_shape_invariant (texts vcs vts : List PyStr) (minLen : Int)
    (l : List Chunk) (h : chunk_sentences texts vcs vts minLen = .ok l) :
    ∀ c ∈ l, c.texts ≠ [] ∧ c.voice_clones.length = c.texts.length ∧
      c.voice_transcriptions.length = c.texts.length := by
  unfold chunk_sentences at h
  split at h
  · cases h
  · split at h
    · cases h
      intro c hc
      simp at hc
    · cases h
      intro c hc
      rw [combine_minis_eq] at hc
      have hwf := chunkFold_wf minLen (mini_chunks_of texts vcs vts) initChunkState
        (by exact ⟨rfl, rfl⟩)
      rw [List.mem_append] at hc
      rcases hc with hc | hc
      · exact hwf.1 c hc
      · exact flushChunk_wf _ hwf.2.1 hwf.2.2 c hc

/-- Witness for C10 at a concrete input. -/
theorem chunk_shape_invariant_witness :
    (Chunk.mk ["Hey! Hi.".data] ["a".data] ["x".data]).texts ≠ [] ∧
    (Chunk.mk ["Hey! Hi.".data] ["a".data] ["x".data]).voice_clones.length =
      (Chunk.mk ["Hey! Hi.".data] ["a".data] ["x".data]).texts.length ∧
    (Chunk.mk ["Hey! Hi.".data] ["a".data] ["x".data]).voice_transcriptions.length =
      (Chunk.mk ["Hey! Hi.".data] ["a".data] ["x".data]).texts.length :=
  chunk_shape_invariant ["Hey! Hi.".data] ["a".data] ["x".data] 3
    [Chunk.mk ["Hey! Hi.".data] ["a".data] ["x".data]] (by rfl)
    (Chunk.mk ["Hey! Hi.".data] ["a".data] ["x".data]) (by simp)

/-- Witness for C6's amended theorem at concrete inputs. -/
theorem chunk_sequence_identical_across_candidates_witness :
    candidate_chunk_sequence demoCtx false ["x one".data] ["t".data] 0 =
      candidate_chunk_sequence demoCtx false ["x one".data] ["t".data] 5 ∧
    chunker_invocations false 3 genAllOk = 3 :=
  ⟨(chunk_sequence_identical_across_candidates demoCtx false ["x one".data] ["t".data] 0 5).1,
   (chunk_sequence_identical_across_candidates demoCtx false ["x one".data] ["t".data] 0 5).2.1
     3 genAllOk (fun k _ => by rfl)⟩

end BookForge
